import Mathlib

namespace Pipeline

/-!
Verification of the reconciliation-and-analytics pipeline implemented in
`src/streamlit_app.py` (merging a labor-time table with a production-output
table and computing per-operator efficiency analytics).

Modelling conventions for the shallow embedding:

* A cell of a pandas DataFrame is a `Cell`: a string, a rational number
  (machine floats are modelled as exact rationals), `inf`/`ninf` (the IEEE
  infinities that numpy division produces), or `nan` (float NaN, which in
  pandas doubles as the missing value).
* A DataFrame is a `Table`: a list of column names plus rows of cells
  addressed positionally.  `getCell` reads the cell under the first column
  of a given name; positions that do not exist read as `nan`, matching the
  missing-value behaviour of the source.
* numpy/pandas elementwise arithmetic on numeric columns is embedded by
  `Cell.mul`, `Cell.div`, `Cell.add` with IEEE special-value semantics
  (division by zero gives a signed infinity, `0/0` and any operation on a
  missing value give `nan`, no exception is ever raised).
-/

/-- A scalar value held by one DataFrame cell. -/
inductive Cell where
  | str : String → Cell
  | num : ℚ → Cell
  | inf : Cell
  | ninf : Cell
  | nan : Cell
deriving DecidableEq

/-- numpy elementwise multiplication on scalars (IEEE semantics on the
special values; strings never reach arithmetic in the modelled paths and
behave as missing). -/
def Cell.mul : Cell → Cell → Cell
  | .num a, .num b => .num (a * b)
  | .num a, .inf => if 0 < a then .inf else if a < 0 then .ninf else .nan
  | .inf, .num b => if 0 < b then .inf else if b < 0 then .ninf else .nan
  | .num a, .ninf => if 0 < a then .ninf else if a < 0 then .inf else .nan
  | .ninf, .num b => if 0 < b then .ninf else if b < 0 then .inf else .nan
  | .inf, .inf => .inf
  | .inf, .ninf => .ninf
  | .ninf, .inf => .ninf
  | .ninf, .ninf => .inf
  | _, _ => .nan

/-- numpy elementwise division: a nonzero numerator divided by zero gives a
signed infinity (with only a runtime warning in the source), `0/0` gives
`nan`, and a missing operand propagates to `nan`.  No exception. -/
def Cell.div : Cell → Cell → Cell
  | .num a, .num b =>
      if b = 0 then (if 0 < a then .inf else if a < 0 then .ninf else .nan)
      else .num (a / b)
  | .num _, .inf => .num 0
  | .num _, .ninf => .num 0
  | .inf, .num b => if 0 ≤ b then .inf else .ninf
  | .ninf, .num b => if 0 ≤ b then .ninf else .inf
  | _, _ => .nan

/-- numpy elementwise addition (used through `sum` in the station mean). -/
def Cell.add : Cell → Cell → Cell
  | .num a, .num b => .num (a + b)
  | .num _, .inf => .inf
  | .inf, .num _ => .inf
  | .num _, .ninf => .ninf
  | .ninf, .num _ => .ninf
  | .inf, .inf => .inf
  | .ninf, .ninf => .ninf
  | _, _ => .nan

/-- `Series.fillna(0)`: replace a missing value by zero, leave the rest. -/
def Cell.fillna0 : Cell → Cell
  | .nan => .num 0
  | c => c

/-- `x >= q` on one cell, as numpy evaluates it (`nan` compares false,
strings never reach the modelled comparisons). -/
def Cell.geB : Cell → ℚ → Bool
  | .num a, q => decide (q ≤ a)
  | .inf, _ => true
  | _, _ => false

/-- `Series.between(lo, hi)` for one cell: inclusive on both ends,
false on `nan`/`inf`. -/
def Cell.betweenB : Cell → ℚ → ℚ → Bool
  | .num a, lo, hi => decide (lo ≤ a) && decide (a ≤ hi)
  | _, _, _ => false

/-- Is the cell a finite number? -/
def Cell.isNum : Cell → Bool
  | .num _ => true
  | _ => false

/-- The rational carried by a finite numeric cell (0 otherwise). -/
def Cell.toQ : Cell → ℚ
  | .num q => q
  | _ => 0

/-- A DataFrame: column names plus positional rows. -/
structure Table where
  cols : List String
  rows : List (List Cell)
deriving DecidableEq

/-- Index of the first column with the given name (length if absent). -/
def colIdx : List String → String → Nat
  | [], _ => 0
  | c :: cs, k => if c = k then 0 else colIdx cs k + 1

/-- Read the cell of row `r` under column `k` of table `t`; a position that
does not exist reads as missing. -/
def getCell (t : Table) (r : List Cell) (k : String) : Cell :=
  r.getD (colIdx t.cols k) Cell.nan

/-- All rows have exactly one cell per column. -/
def Table.Rect (t : Table) : Prop := ∀ r ∈ t.rows, r.length = t.cols.length

/-- Derived metric of `merged_df['實際CT'] = (merged_df['人員作業時間'] * 3600)
/ merged_df['實際產出']` (line 771), at the level of one row. -/
def actualCT (hours output : Cell) : Cell :=
  (hours.mul (.num 3600)).div output

/-! ### Schema normalization (lines 654-675) -/

/-- One entry of the rename mapping: `substName old new` is the column map
that `df.rename(columns={old: new})` applies to each column name. -/
def substName (old new c : String) : String := if c = old then new else c

/-- `df.rename(columns={old: new})` guarded by `if old in df.columns` as in
lines 658-667; rows are untouched, every column named `old` becomes `new`. -/
def renameCol (t : Table) (old new : String) : Table :=
  if old ∈ t.cols then { t with cols := t.cols.map (substName old new) } else t

/-- The full source-specific renaming of lines 658-675 (作業時間→標工 and
工作內容→工站 on file 1, 產出→實際產出 and RUN總時數→人員作業時間 on file 2),
combined on one table; each rename is applied only if its source column
exists.  Building the whole mapping first and renaming once, as the code
does, agrees with this sequential form because no rename target is another
rename source. -/
def normalize (t : Table) : Table :=
  renameCol (renameCol (renameCol (renameCol t "作業時間" "標工") "工作內容" "工站")
    "產出" "實際產出") "RUN總時數" "人員作業時間"

/-- The composite column-name map performed by `normalize`. -/
def rn (c : String) : String :=
  substName "RUN總時數" "人員作業時間"
    (substName "產出" "實際產出"
      (substName "工作內容" "工站"
        (substName "作業時間" "標工" c)))

/-! ### Join-input preprocessing (lines 715-728)

`df1.replace('', np.nan)` turns cells equal to the empty string into
missing; then, for the two fixed columns 料號 and 工序 only (when present),
`astype(str).str.strip()` coerces the whole column to trimmed strings —
turning a missing value into the literal string `"nan"` — and finally
`dropna(subset=merge_columns)` drops the rows still missing a value under a
selected key column. -/

/-- One pass of `df.replace('', np.nan)`. -/
def replaceEmptyWithNan (t : Table) : Table :=
  { t with rows := t.rows.map (List.map fun c => if c = Cell.str "" then Cell.nan else c) }

/-- Python `str.strip()` on the character list of a string. -/
def strTrim (s : String) : String :=
  String.mk (((s.data.dropWhile Char.isWhitespace).reverse.dropWhile Char.isWhitespace).reverse)

/-- `Series.astype(str)` on one cell: strings unchanged, missing becomes
the literal string `"nan"`, infinities render as `"inf"`/`"-inf"`; the
decimal rendering of finite floats is abstracted (no modelled path inspects
it). -/
def Cell.astypeStr : Cell → Cell
  | .str s => .str s
  | .nan => .str "nan"
  | .inf => .str "inf"
  | .ninf => .str "-inf"
  | .num q => .str (toString q.num ++ "/" ++ toString q.den)

/-- `.str.strip()` on one cell. -/
def Cell.stripStr : Cell → Cell
  | .str s => .str (strTrim s)
  | c => c

/-- The per-cell effect of `astype(str).str.strip()`. -/
def trimFun (c : Cell) : Cell := c.astypeStr.stripStr

/-- Overwrite position `i` of a row by `f` of its current value
(used for the whole-column assignment `df[col] = df[col]...`). -/
def setCellAt (r : List Cell) (i : Nat) (f : Cell → Cell) : List Cell :=
  r.set i (f (r.getD i Cell.nan))

/-- `df[k] = df[k].astype(str).str.strip()` guarded by `if k in df.columns`
(lines 720-724). -/
def coerceTrimCol (t : Table) (k : String) : Table :=
  if k ∈ t.cols then
    { t with rows := t.rows.map fun r => setCellAt r (colIdx t.cols k) trimFun }
  else t

/-- The fixed coercion loop `for col in ['料號', '工序']`. -/
def coerceTrimKeys (t : Table) : Table :=
  coerceTrimCol (coerceTrimCol t "料號") "工序"

/-- `df.dropna(subset=keys)` (lines 727-728). -/
def dropnaOn (t : Table) (keys : List String) : Table :=
  { t with rows := t.rows.filter fun r => keys.all fun k => !(getCell t r k == Cell.nan) }

/-- The full preprocessing applied to each source table before `pd.merge`. -/
def prepJoinInput (t : Table) (keys : List String) : Table :=
  dropnaOn (coerceTrimKeys (replaceEmptyWithNan t)) keys

/-! ### Data quality filter (lines 798-820)

Each predicate is appended to `filter_conditions` only if its column exists
in `selected_df`; the kept rows are those on which `np.logical_and.reduce`
of all active predicates is true.  If no predicate is active the table is
passed through unchanged (line 843-844).

The 效率 column of `selected_df` holds the percentage string built on line
775 (`str((ratio*100).round(2)) + '%'`); it is modelled by the numeric
value it renders, because Python's shortest-round-trip float formatting
makes `str` followed by `float` the identity, so
`效率.isin(['0.0%','inf%','nan%'])` holds exactly when that value is `0`,
`inf` or `nan`. -/

/-- `效率.isin(['0.0%', 'inf%', 'nan%'])` on the value rendered by the
percentage string. -/
def pctDegenerate : Cell → Bool
  | .num q => decide (q = 0)
  | .inf => true
  | .nan => true
  | _ => false

/-- `姓名.isin(['MFGR', 'MFG_R'])`. -/
def reservedName (c : Cell) : Bool :=
  c == Cell.str "MFGR" || c == Cell.str "MFG_R"

/-- Is any filter predicate active on this table (is `filter_conditions`
non-empty)? -/
def qpActive (t : Table) : Bool :=
  ["人員作業時間", "實際產出", "實際CT", "效率", "姓名", "效率值", "工站", "標準CT"].any
    fun c => decide (c ∈ t.cols)

/-- The conjunction of the active quality predicates on one row, in the
order the code appends them (lines 800-817); an inactive predicate is
true. -/
def qualityPred (t : Table) (r : List Cell) : Bool :=
  (if "人員作業時間" ∈ t.cols then (getCell t r "人員作業時間").fillna0.geB (3/100) else true) &&
  (if "實際產出" ∈ t.cols then (getCell t r "實際產出").fillna0.geB 0 else true) &&
  (if "實際CT" ∈ t.cols then (getCell t r "實際CT").fillna0.geB 0 else true) &&
  (if "效率" ∈ t.cols then !pctDegenerate (getCell t r "效率") else true) &&
  (if "姓名" ∈ t.cols then !reservedName (getCell t r "姓名") else true) &&
  (if "效率值" ∈ t.cols then (getCell t r "效率值").betweenB 20 150 else true) &&
  (if "工站" ∈ t.cols then !(getCell t r "工站" == Cell.nan) else true) &&
  (if "標準CT" ∈ t.cols then !(getCell t r "標準CT" == Cell.nan) else true) &&
  (if "姓名" ∈ t.cols then !(getCell t r "姓名" == Cell.nan) else true)

/-- `filtered_df = selected_df[np.logical_and.reduce(filter_conditions)]`,
with the pass-through branch for an empty condition list. -/
def qualityFilter (t : Table) : Table :=
  if qpActive t then { t with rows := t.rows.filter (qualityPred t) } else t

/-! ### Derived efficiency metric (lines 773-775, 789-790, 941-945) -/

/-- Round half-to-even to an integer, as Python `round` and numpy
`Series.round` do. -/
def rheInt (x : ℚ) : ℤ :=
  if x - (⌊x⌋ : ℚ) < 1/2 then ⌊x⌋
  else if 1/2 < x - (⌊x⌋ : ℚ) then ⌊x⌋ + 1
  else if ⌊x⌋ % 2 = 0 then ⌊x⌋ else ⌊x⌋ + 1

/-- `Series.round(2)`: round to two decimal places. -/
def roundTo2 (x : ℚ) : ℚ := (rheInt (x * 100) : ℚ) / 100

/-- `.round(2)` lifted to a cell (`inf`/`nan` round to themselves). -/
def Cell.round2 : Cell → Cell
  | .num q => .num (roundTo2 q)
  | c => c

/-- Line 774: `效率 = 實際產出 / 理論產出`. -/
def effRatio (actual theo : Cell) : Cell := actual.div theo

/-- Line 775 renders `(效率*100).round(2)` with `astype(str)` and appends
`'%'`; line 790 strips the `'%'` and parses back with `to_numeric`.
Python float→str→float is exact (shortest round-trip repr) and
`'inf'`/`'nan'` parse back to `inf`/NaN, so the net effect on the carried
value is the identity. -/
def pctStringRoundTrip (v : Cell) : Cell := v

/-- `pd.to_numeric(..., errors='coerce')` on a cell already carrying its
numeric value; a non-numeric string would coerce to missing (the modelled
paths never feed one). -/
def toNumericCell : Cell → Cell
  | .str _ => .nan
  | c => c

/-- The 效率值 column of line 790: the percentage recovered from the
rendered 效率 string. -/
def effValCell (actual theo : Cell) : Cell :=
  pctStringRoundTrip (((effRatio actual theo).mul (.num 100)).round2)

/-- Lines 941-943: the ratio consumed by the analytics engine,
`pd.to_numeric(效率值) / 100`. -/
def analyticsEffRatio (actual theo : Cell) : Cell :=
  (toNumericCell (effValCell actual theo)).div (.num 100)

/-! ### Efficiency analytics engine (lines 934-974)

The engine reads the analytics input table `base_df`.  Its gate (line 938)
requires columns 工站 and 姓名 plus one of 效率值/效率; when the gate fails
the whole advanced analysis is skipped with a fixed `st.info` message
(line 1156) and no exception; the upstream merged output is unaffected. -/

/-- Lines 941-945: the recomputed per-row 效率 ratio of the analytics
table: `to_numeric(效率值)/100` when 效率值 exists, else the value parsed
back from the 效率 percent string divided by 100. -/
def effOf (t : Table) (r : List Cell) : Cell :=
  if "效率值" ∈ t.cols then (toNumericCell (getCell t r "效率值")).div (.num 100)
  else (toNumericCell (pctStringRoundTrip (getCell t r "效率"))).div (.num 100)

/-- The distinct non-missing 工站 values (pandas `groupby` drops missing
keys; the sorted key order of pandas is abstracted to first-seen
de-duplication, no settled claim depends on the order of the groups). -/
def stationKeys (t : Table) : List Cell :=
  ((t.rows.map fun r => getCell t r "工站").filter fun c => !(c == Cell.nan)).dedup

/-- The rows of one station group. -/
def stationGroup (t : Table) (s : Cell) : List (List Cell) :=
  t.rows.filter fun r => getCell t r "工站" == s

/-- pandas `mean`: sum of the non-missing values over their count, `nan`
on an empty or all-missing list. -/
def meanCell (l : List Cell) : Cell :=
  let nums := l.filter fun c => !(c == Cell.nan)
  if nums.length = 0 then Cell.nan
  else (nums.foldl Cell.add (Cell.num 0)).div (Cell.num (nums.length : ℚ))

/-- One row of the 工站 metrics table `{工站, 效率(mean×100), 人數}`. -/
structure StationRow where
  station : Cell
  meanEff : Cell
  headCount : Nat
deriving DecidableEq

/-- Lines 954-959: `groupby('工站').agg({'效率': 'mean', '姓名': 'count'})`
then `效率 *= 100`.  pandas `'mean'` skips missing 效率 cells and
`'count'` counts only non-missing 姓名 cells. -/
def stationMetrics (t : Table) : List StationRow :=
  (stationKeys t).map fun s =>
    { station := s
    , meanEff := (meanCell ((stationGroup t s).map (effOf t))).mul (.num 100)
    , headCount := ((stationGroup t s).filter
        fun r => !(getCell t r "姓名" == Cell.nan)).length }

/-- `<` between two cells as numpy evaluates it (`nan` compares false). -/
def Cell.ltB : Cell → Cell → Bool
  | .num a, .num b => decide (a < b)
  | .ninf, .num _ => true
  | .num _, .inf => true
  | .ninf, .inf => true
  | _, _ => false

/-- `≤` between two cells as numpy evaluates it (`nan` compares false). -/
def Cell.leB : Cell → Cell → Bool
  | .num a, .num b => decide (a ≤ b)
  | .ninf, .num _ => true
  | .num _, .inf => true
  | .ninf, .inf => true
  | .ninf, .ninf => true
  | .inf, .inf => true
  | _, _ => false

/-- Line 964: `analysis_df[analysis_df['效率'] < 0.8]`. -/
def lowEfficiency (t : Table) : List (List Cell) :=
  t.rows.filter fun r => Cell.ltB (effOf t r) (.num (4/5))

/-- Line 965: `analysis_df[analysis_df['效率'] > 1.05]`. -/
def highEfficiency (t : Table) : List (List Cell) :=
  t.rows.filter fun r => Cell.ltB (.num (21/20)) (effOf t r)

/-- Row comparison by recomputed 效率. -/
def rowLe (t : Table) (a b : List Cell) : Bool := Cell.leB (effOf t a) (effOf t b)

/-- One insertion step of an insertion sort.  This stands in for numpy's
base `argsort` with pandas' default `kind='quicksort'` (introsort), which
is documented as NOT stable: it degrades to stable insertion sort only on
partitions at or below numpy's small-array cutoff, and may reorder equal
keys above it.  The idealization as an insertion sort is therefore an
over-approximation of the order guarantees of the source; no settled
theorem relies on the order it produces (it only feeds the `analyze`
bundle). -/
def insertAsc (t : Table) (x : List Cell) : List (List Cell) → List (List Cell)
  | [] => [x]
  | y :: ys => if rowLe t x y then x :: y :: ys else y :: insertAsc t x ys

/-- Ascending insertion sort of rows by recomputed 效率 (see the caveat on
`insertAsc`: the program's default quicksort does not guarantee this
order's tie behaviour). -/
def sortAscRows (t : Table) : List (List Cell) → List (List Cell)
  | [] => []
  | x :: xs => insertAsc t x (sortAscRows t xs)

/-- Line 968's `sort_values('效率', ascending=False)`, following pandas
`nargsort`: the non-missing block is reversed, argsorted ascending and
reversed again, and rows with missing 效率 go last in original order.
The base argsort is the idealized `sortAscRows` (see `insertAsc`). -/
def sortedDescRows (t : Table) : List (List Cell) :=
  (sortAscRows t ((t.rows.filter fun r => !(effOf t r == Cell.nan)).reverse)).reverse
    ++ t.rows.filter fun r => effOf t r == Cell.nan

/-- Line 968: `analysis_df.sort_values('效率', ascending=False).head(10)`. -/
def topPerformers (t : Table) : List (List Cell) :=
  (sortedDescRows t).take 10

/-- The analytics outputs settled by the claims (the CT-deviation outputs
of lines 948-952/971-974 are exercised by no claim and are omitted). -/
structure AnalyticsResult where
  stationTbl : List StationRow
  lowEff : List (List Cell)
  highEff : List (List Cell)
  topTen : List (List Cell)
deriving DecidableEq

/-- Lines 954-968 bundled. -/
def analyze (t : Table) : AnalyticsResult :=
  ⟨stationMetrics t, lowEfficiency t, highEfficiency t, topPerformers t⟩

/-- Line 938's gate: 工站 and 姓名 plus one of 效率值/效率. -/
def analyticsGate (t : Table) : Bool :=
  decide ("工站" ∈ t.cols) && decide ("姓名" ∈ t.cols) &&
    (decide ("效率值" ∈ t.cols) || decide ("效率" ∈ t.cols))

/-- The fixed `st.info` text of line 1156. -/
def skipMessage : String := "進階分析略過：缺少必要欄位（至少需含 工站/姓名/效率）"

/-- Outcome of the advanced-analysis stage: either it ran, or it was
skipped with an informational message.  The stage has no raising path. -/
inductive AdvancedOutcome where
  | ran : AnalyticsResult → AdvancedOutcome
  | skippedInfo : String → AdvancedOutcome
deriving DecidableEq

/-- Lines 938 and 1155-1156: run the engine behind the schema gate. -/
def advancedAnalysis (t : Table) : AdvancedOutcome :=
  if analyticsGate t then .ran (analyze t) else .skippedInfo skipMessage

/-! ### Station aggregation: C5 and C10 -/

/-- Example analytics input with one station A row whose 姓名 is missing. -/
def stationTblMissingName : Table :=
  ⟨["工站", "姓名", "效率值"], [[Cell.str "A", Cell.nan, Cell.num 100]]⟩

/-- Example analytics input whose station A group has 3 rows, 2 of them
with a 姓名 and only 1 with a parseable 效率值. -/
def stationTblMixed : Table :=
  ⟨["工站", "姓名", "效率值"],
    [[Cell.str "A", Cell.str "X", Cell.num 100],
     [Cell.str "A", Cell.nan, Cell.nan],
     [Cell.str "A", Cell.str "Y", Cell.nan]]⟩

/-! ### Verified properties -/

theorem Cell.div_nan (c : Cell) : c.div .nan = .nan := by
  cases c <;> rfl

theorem Cell.nan_div (c : Cell) : Cell.div .nan c = .nan := by
  cases c <;> rfl

theorem Cell.nan_mul (c : Cell) : Cell.mul .nan c = .nan := by
  cases c <;> rfl

/-- C1: the claim as stated is false on the code: with
`PersonOperatingHours = 1.0` and `ActualOutput = 0` the computed 實際CT is
positive infinity, not a missing value. -/
theorem C1_counterexample :
    actualCT (Cell.num 1) (Cell.num 0) = Cell.inf ∧ Cell.inf ≠ Cell.nan := by
  constructor
  · show (Cell.mul (.num 1) (.num 3600)).div (.num 0) = Cell.inf
    norm_num [Cell.mul, Cell.div]
  · decide

/-- C1 (amended): a missing operand makes 實際CT missing, but a zero
`ActualOutput` with a positive numeric `PersonOperatingHours` makes it
positive infinity (negative gives negative infinity, `0/0` gives missing);
in every case the division is absorbed per-row without an exception. -/
theorem C1_actualCT_amended (h o : Cell) (a : ℚ) (ha : 0 < a) :
    actualCT h Cell.nan = Cell.nan ∧
    actualCT Cell.nan o = Cell.nan ∧
    actualCT (Cell.num a) (Cell.num 0) = Cell.inf ∧
    actualCT (Cell.num 0) (Cell.num 0) = Cell.nan := by
  refine ⟨Cell.div_nan _, ?_, ?_, ?_⟩
  · show (Cell.mul .nan (.num 3600)).div o = Cell.nan
    rw [Cell.nan_mul]
    exact Cell.nan_div o
  · show (Cell.mul (.num a) (.num 3600)).div (.num 0) = Cell.inf
    have h36 : (0:ℚ) < a * 3600 := by positivity
    simp [Cell.mul, Cell.div, h36]
  · show (Cell.mul (.num 0) (.num 3600)).div (.num 0) = Cell.nan
    norm_num [Cell.mul, Cell.div]

/-- C1 amended, witnessed at `PersonOperatingHours = 1`. -/
theorem C1_witness :
    actualCT (Cell.num 5) Cell.nan = Cell.nan ∧
    actualCT Cell.nan (Cell.num 7) = Cell.nan ∧
    actualCT (Cell.num 1) (Cell.num 0) = Cell.inf ∧
    actualCT (Cell.num 0) (Cell.num 0) = Cell.nan :=
  C1_actualCT_amended (Cell.num 5) (Cell.num 7) 1 (by norm_num)

theorem renameCol_cols (t : Table) (old new : String) :
    (renameCol t old new).cols = t.cols.map (substName old new) := by
  unfold renameCol
  split
  · rfl
  · next hmem =>
    have h : ∀ c ∈ t.cols, substName old new c = c := by
      intro c hc
      unfold substName
      split
      · next hco => exact absurd (hco ▸ hc) hmem
      · rfl
    rw [List.map_congr_left h]
    simp

theorem renameCol_rows (t : Table) (old new : String) :
    (renameCol t old new).rows = t.rows := by
  unfold renameCol
  split <;> rfl

theorem normalize_cols (t : Table) : (normalize t).cols = t.cols.map rn := by
  unfold normalize
  rw [renameCol_cols, renameCol_cols, renameCol_cols, renameCol_cols,
    List.map_map, List.map_map, List.map_map]
  rfl

theorem normalize_rows (t : Table) : (normalize t).rows = t.rows := by
  unfold normalize
  rw [renameCol_rows, renameCol_rows, renameCol_rows, renameCol_rows]

theorem rn_fixed {d : String} (h1 : d ≠ "作業時間") (h2 : d ≠ "工作內容")
    (h3 : d ≠ "產出") (h4 : d ≠ "RUN總時數") : rn d = d := by
  unfold rn substName
  rw [if_neg h1, if_neg h2, if_neg h3, if_neg h4]

theorem rn_ne_src (c : String) :
    rn c ≠ "作業時間" ∧ rn c ≠ "工作內容" ∧ rn c ≠ "產出" ∧ rn c ≠ "RUN總時數" := by
  by_cases h1 : c = "作業時間"
  · subst h1; decide
  by_cases h2 : c = "工作內容"
  · subst h2; decide
  by_cases h3 : c = "產出"
  · subst h3; decide
  by_cases h4 : c = "RUN總時數"
  · subst h4; decide
  · have he : rn c = c := rn_fixed h1 h2 h3 h4
    rw [he]
    exact ⟨h1, h2, h3, h4⟩

theorem rn_idem (c : String) : rn (rn c) = rn c := by
  obtain ⟨h1, h2, h3, h4⟩ := rn_ne_src c
  exact rn_fixed h1 h2 h3 h4

theorem map_rn_rn (l : List String) : (l.map rn).map rn = l.map rn := by
  induction l with
  | nil => rfl
  | cons a as ih => simp only [List.map_cons, ih, rn_idem]

/-- C8: the source-specific column renaming is idempotent —
`normalize (normalize T) = normalize T` for every table. -/
theorem C8_normalize_idempotent (t : Table) :
    normalize (normalize t) = normalize t := by
  have hcols : (normalize (normalize t)).cols = (normalize t).cols := by
    rw [normalize_cols (normalize t), normalize_cols t]
    exact map_rn_rn t.cols
  have hrows : (normalize (normalize t)).rows = (normalize t).rows := by
    rw [normalize_rows (normalize t), normalize_rows t]
  cases hn : normalize (normalize t)
  cases hm : normalize t
  simp_all

theorem getD_set_self {α : Type} (l : List α) (i : Nat) (v d : α)
    (h : i < l.length) : (l.set i v).getD i d = v := by
  induction l generalizing i with
  | nil => simp at h
  | cons a as ih =>
    cases i with
    | zero => rfl
    | succ j =>
      simp only [List.length_cons, Nat.succ_lt_succ_iff] at h
      exact ih j h

theorem getD_set_ne {α : Type} (l : List α) {i j : Nat} (v d : α)
    (h : i ≠ j) : (l.set i v).getD j d = l.getD j d := by
  induction l generalizing i j with
  | nil => rfl
  | cons a as ih =>
    cases i with
    | zero =>
      cases j with
      | zero => exact absurd rfl h
      | succ j' => rfl
    | succ i' =>
      cases j with
      | zero => rfl
      | succ j' => exact ih fun he => h (by rw [he])

theorem set_oob {α : Type} (l : List α) (i : Nat) (v : α)
    (h : l.length ≤ i) : l.set i v = l := by
  induction l generalizing i with
  | nil => rfl
  | cons a as ih =>
    cases i with
    | zero => simp at h
    | succ j =>
      simp only [List.length_cons, Nat.succ_le_succ_iff] at h
      simp only [List.set]
      rw [ih j h]

theorem trimFun_ne_nan (c : Cell) : trimFun c ≠ Cell.nan := by
  cases c <;> simp [trimFun, Cell.astypeStr, Cell.stripStr]

theorem colIdx_lt {cols : List String} {k : String} (h : k ∈ cols) :
    colIdx cols k < cols.length := by
  induction cols with
  | nil => simp at h
  | cons c cs ih =>
    simp only [colIdx]
    split
    · simp
    · next hck =>
      have hk : k ∈ cs := by
        rcases List.mem_cons.mp h with h' | h'
        · exact absurd h'.symm hck
        · exact h'
      simpa [Nat.succ_lt_succ_iff] using ih hk

theorem replaceEmpty_cols (t : Table) : (replaceEmptyWithNan t).cols = t.cols := rfl

theorem coerceTrimCol_cols (t : Table) (k : String) :
    (coerceTrimCol t k).cols = t.cols := by
  unfold coerceTrimCol
  split <;> rfl

theorem coerceTrimKeys_cols (t : Table) : (coerceTrimKeys t).cols = t.cols := by
  unfold coerceTrimKeys
  rw [coerceTrimCol_cols, coerceTrimCol_cols]

theorem getCell_cols_eq {u w : Table} (h : u.cols = w.cols) (r : List Cell)
    (k : String) : getCell u r k = getCell w r k := by
  unfold getCell
  rw [h]

theorem replaceEmpty_rect {t : Table} (h : t.Rect) : (replaceEmptyWithNan t).Rect := by
  intro r hr
  simp only [replaceEmptyWithNan, List.mem_map] at hr
  obtain ⟨r0, hr0, rfl⟩ := hr
  simpa using h r0 hr0

theorem coerceTrimCol_rect {t : Table} (k : String) (h : t.Rect) :
    (coerceTrimCol t k).Rect := by
  intro r hr
  rw [coerceTrimCol_cols]
  unfold coerceTrimCol at hr
  split at hr
  · simp only [List.mem_map] at hr
    obtain ⟨r0, hr0, rfl⟩ := hr
    simpa [setCellAt] using h r0 hr0
  · exact h r hr

theorem coerceTrimCol_self {u : Table} {k : String} (hrect : u.Rect)
    (hk : k ∈ u.cols) :
    ∀ r ∈ (coerceTrimCol u k).rows, getCell u r k ≠ Cell.nan := by
  intro r hr
  unfold coerceTrimCol at hr
  rw [if_pos hk] at hr
  simp only [List.mem_map] at hr
  obtain ⟨r0, hr0, rfl⟩ := hr
  have hlen : colIdx u.cols k < r0.length := by
    rw [hrect r0 hr0]
    exact colIdx_lt hk
  unfold getCell setCellAt
  rw [getD_set_self _ _ _ _ hlen]
  exact trimFun_ne_nan _

theorem coerceTrimCol_pres {u : Table} {k : String} (c : String)
    (h : ∀ r ∈ u.rows, getCell u r k ≠ Cell.nan) :
    ∀ r ∈ (coerceTrimCol u c).rows, getCell u r k ≠ Cell.nan := by
  intro r hr
  unfold coerceTrimCol at hr
  split at hr
  · simp only [List.mem_map] at hr
    obtain ⟨r0, hr0, rfl⟩ := hr
    have h0 := h r0 hr0
    unfold getCell at h0 ⊢
    unfold setCellAt
    by_cases hij : colIdx u.cols c = colIdx u.cols k
    · by_cases hlen : colIdx u.cols c < r0.length
      · rw [hij] at hlen ⊢
        rw [getD_set_self _ _ _ _ hlen]
        exact trimFun_ne_nan _
      · rw [set_oob _ _ _ (Nat.le_of_not_lt hlen)]
        exact h0
    · rw [getD_set_ne _ _ _ hij]
      exact h0
  · exact h r hr

theorem coerceTrimKeys_keycell {t : Table} {k : String} (hrect : t.Rect)
    (hk : k = "料號" ∨ k = "工序") (hc : k ∈ t.cols) :
    ∀ r ∈ (coerceTrimKeys t).rows, getCell t r k ≠ Cell.nan := by
  have h1cols : (coerceTrimCol t "料號").cols = t.cols := coerceTrimCol_cols t _
  have h1rect : (coerceTrimCol t "料號").Rect := coerceTrimCol_rect _ hrect
  rcases hk with rfl | rfl
  · -- trimmed by the first pass, preserved by the second
    have hself := coerceTrimCol_self hrect hc
    have hpres := coerceTrimCol_pres (u := coerceTrimCol t "料號") "工序"
      (by intro r hr
          rw [getCell_cols_eq h1cols]
          exact hself r hr)
    intro r hr
    rw [← getCell_cols_eq h1cols]
    exact hpres r hr
  · -- trimmed by the second pass directly
    have hc1 : "工序" ∈ (coerceTrimCol t "料號").cols := by rw [h1cols]; exact hc
    intro r hr
    rw [← getCell_cols_eq h1cols]
    exact coerceTrimCol_self h1rect hc1 r hr

/-- C2: the claim as stated is false on the code.  With key column 料號, a
row whose key value is the one-space string `" "` is NOT excluded: it
survives preprocessing with the empty-after-trim value `""`; a row whose
key value is missing survives as the literal string `"nan"`; and a
user-selected key column other than 料號/工序 (here 數量) is not coerced or
trimmed at all. -/
theorem C2_counterexample :
    (prepJoinInput ⟨["料號"], [[Cell.str " "]]⟩ ["料號"]).rows = [[Cell.str ""]] ∧
    (prepJoinInput ⟨["料號"], [[Cell.nan]]⟩ ["料號"]).rows = [[Cell.str "nan"]] ∧
    (prepJoinInput ⟨["數量"], [[Cell.str " x "]]⟩ ["數量"]).rows = [[Cell.str " x "]] := by
  refine ⟨?_, ?_, ?_⟩ <;> decide

/-- C2 (amended): preprocessing replaces empty-string cells by missing,
coerces and trims only the fixed columns 料號/工序 (when present, with
missing becoming the string `"nan"`), then drops rows missing a selected
key value; consequently, when every selected key column is one of
料號/工序 and exists, no row is dropped at all, and every surviving row is
non-missing on every key column. -/
theorem C2_prep_amended (t : Table) (keys : List String) (hrect : t.Rect)
    (hk : ∀ k ∈ keys, k = "料號" ∨ k = "工序")
    (hc : ∀ k ∈ keys, k ∈ t.cols) :
    (prepJoinInput t keys).rows.length = t.rows.length ∧
    ∀ r ∈ (prepJoinInput t keys).rows, ∀ k ∈ keys,
      getCell (prepJoinInput t keys) r k ≠ Cell.nan := by
  set u := replaceEmptyWithNan t with hu
  have hucols : u.cols = t.cols := rfl
  have hurect : u.Rect := replaceEmpty_rect hrect
  set v := coerceTrimKeys u with hv
  have hvcols : v.cols = t.cols := by
    rw [hv, coerceTrimKeys_cols]
    exact hucols
  have hkey : ∀ r ∈ v.rows, ∀ k ∈ keys, getCell v r k ≠ Cell.nan := by
    intro r hr k hkk
    rw [getCell_cols_eq (hvcols.trans hucols.symm)]
    exact coerceTrimKeys_keycell hurect (hk k hkk) (by rw [hucols]; exact hc k hkk) r hr
  have hfilter : v.rows.filter (fun r => keys.all fun k => !(getCell v r k == Cell.nan))
      = v.rows := by
    apply List.filter_eq_self.mpr
    intro r hr
    rw [List.all_eq_true]
    intro k hkk
    simpa using hkey r hr k hkk
  constructor
  · show (v.rows.filter _).length = t.rows.length
    rw [hfilter]
    have h2 : v.rows.length = u.rows.length := by
      rw [hv]
      unfold coerceTrimKeys coerceTrimCol
      split <;> split <;> simp
    rw [h2, hu]
    simp [replaceEmptyWithNan]
  · intro r hr k hkk
    have hr' : r ∈ v.rows := by
      have : r ∈ v.rows.filter (fun r => keys.all fun k => !(getCell v r k == Cell.nan)) := hr
      exact List.mem_of_mem_filter this
    rw [getCell_cols_eq (u := prepJoinInput t keys) (w := v) rfl]
    exact hkey r hr' k hkk

/-- C2 amended, witnessed on a one-row table keyed on 料號. -/
theorem C2_witness :
    (prepJoinInput ⟨["料號"], [[Cell.str "A1"]]⟩ ["料號"]).rows.length = 1 ∧
    ∀ r ∈ (prepJoinInput ⟨["料號"], [[Cell.str "A1"]]⟩ ["料號"]).rows, ∀ k ∈ ["料號"],
      getCell (prepJoinInput ⟨["料號"], [[Cell.str "A1"]]⟩ ["料號"]) r k ≠ Cell.nan :=
  C2_prep_amended ⟨["料號"], [[Cell.str "A1"]]⟩ ["料號"]
    (by intro r hr; simp only [List.mem_singleton] at hr; subst hr; rfl)
    (by decide) (by decide)

theorem qualityFilter_cols (t : Table) : (qualityFilter t).cols = t.cols := by
  unfold qualityFilter
  split <;> rfl

/-- C6: the quality filter only removes rows: its output is a sublist of
its input (subset by row identity), never longer, and applying it twice
gives the same table as applying it once. -/
theorem C6_filter_subset_idempotent (t : Table) :
    (qualityFilter t).rows.Sublist t.rows ∧
    (qualityFilter t).rows.length ≤ t.rows.length ∧
    qualityFilter (qualityFilter t) = qualityFilter t := by
  refine ⟨?_, ?_, ?_⟩
  · unfold qualityFilter
    split
    · exact List.filter_sublist t.rows
    · exact List.Sublist.refl t.rows
  · unfold qualityFilter
    split
    · exact List.length_filter_le _ t.rows
    · exact Nat.le_refl _
  · by_cases hA : qpActive t = true
    · have hA' : qpActive { t with rows := t.rows.filter (qualityPred t) } = true := hA
      unfold qualityFilter
      rw [if_pos hA]
      rw [if_pos hA']
      have hrows : (t.rows.filter (qualityPred t)).filter
          (qualityPred { t with rows := t.rows.filter (qualityPred t) })
          = t.rows.filter (qualityPred t) := by
        apply List.filter_eq_self.mpr
        intro r hr
        exact List.of_mem_filter hr
      simp only [hrows]
    · have hA0 : qpActive t = false := by simpa using hA
      unfold qualityFilter
      rw [if_neg (by simp [hA0]), if_neg (by simp [hA0])]

/-- C7: whenever the 效率值 column exists (so the efficiency-range predicate
is active), every kept row carries a finite 效率值 between 20 and 150
inclusive; equivalently its efficiency ratio lies in [0.2, 1.5]. -/
theorem C7_kept_efficiency_range (t : Table) (r : List Cell)
    (hr : r ∈ (qualityFilter t).rows) (hc : "效率值" ∈ t.cols) :
    ∃ q : ℚ, getCell t r "效率值" = Cell.num q ∧
      20 ≤ q ∧ q ≤ 150 ∧ 1/5 ≤ q / 100 ∧ q / 100 ≤ 3/2 := by
  have hact : qpActive t = true := by
    unfold qpActive
    rw [List.any_eq_true]
    exact ⟨"效率值", by decide, decide_eq_true hc⟩
  unfold qualityFilter at hr
  rw [if_pos hact] at hr
  have hpred : qualityPred t r = true := List.of_mem_filter hr
  unfold qualityPred at hpred
  simp only [Bool.and_eq_true] at hpred
  have hbet := hpred.1.1.1.2
  rw [if_pos hc] at hbet
  cases hcell : getCell t r "效率值" with
  | num q =>
    rw [hcell] at hbet
    simp only [Cell.betweenB, Bool.and_eq_true, decide_eq_true_eq] at hbet
    refine ⟨q, rfl, hbet.1, hbet.2, ?_, ?_⟩ <;> linarith [hbet.1, hbet.2]
  | str s => rw [hcell] at hbet; simp [Cell.betweenB] at hbet
  | inf => rw [hcell] at hbet; simp [Cell.betweenB] at hbet
  | ninf => rw [hcell] at hbet; simp [Cell.betweenB] at hbet
  | nan => rw [hcell] at hbet; simp [Cell.betweenB] at hbet

/-- C7, witnessed on a one-row table kept by the filter with 效率值 = 95. -/
theorem C7_witness :
    ∃ q : ℚ,
      getCell ⟨["效率值"], [[Cell.num 95]]⟩ [Cell.num 95] "效率值" = Cell.num q ∧
      20 ≤ q ∧ q ≤ 150 ∧ 1/5 ≤ q / 100 ∧ q / 100 ≤ 3/2 :=
  C7_kept_efficiency_range ⟨["效率值"], [[Cell.num 95]]⟩ [Cell.num 95]
    (by
      unfold qualityFilter
      rw [if_pos (by decide)]
      have hp : qualityPred ⟨["效率值"], [[Cell.num 95]]⟩ [Cell.num 95] = true := by
        unfold qualityPred
        norm_num [getCell, colIdx, Cell.betweenB]
        decide
      simp [List.mem_filter, hp])
    (by decide)

/-- C9: for defined inputs the analytics engine's efficiency ratio is not
the exact ratio `a/b` but that ratio times 100 rounded to two decimals and
divided back by 100 — i.e. the exact ratio rounded to four decimal
places. -/
theorem C9_eff_roundtripped (a b : ℚ) (hb : b ≠ 0) :
    analyticsEffRatio (Cell.num a) (Cell.num b) =
      Cell.num (roundTo2 (a / b * 100) / 100) ∧
    roundTo2 (a / b * 100) / 100 = (rheInt (a / b * 10000) : ℚ) / 10000 := by
  have hdiv : ∀ x y : ℚ, y ≠ 0 → Cell.div (Cell.num x) (Cell.num y) = Cell.num (x / y) := by
    intro x y hy
    show (if y = 0 then (if 0 < x then Cell.inf else if x < 0 then Cell.ninf else Cell.nan)
      else Cell.num (x / y)) = Cell.num (x / y)
    rw [if_neg hy]
  constructor
  · unfold analyticsEffRatio effValCell pctStringRoundTrip effRatio
    rw [hdiv a b hb]
    rw [show Cell.mul (Cell.num (a / b)) (Cell.num 100) = Cell.num (a / b * 100) from rfl]
    rw [show (Cell.num (a / b * 100)).round2 = Cell.num (roundTo2 (a / b * 100)) from rfl]
    rw [show toNumericCell (Cell.num (roundTo2 (a / b * 100)))
      = Cell.num (roundTo2 (a / b * 100)) from rfl]
    exact hdiv _ 100 (by norm_num)
  · have harg : a / b * 100 * 100 = a / b * 10000 := by ring
    unfold roundTo2
    rw [harg]
    ring

/-- C9, witnessed at `實際產出 = 1`, `理論產出 = 3`. -/
theorem C9_witness :
    analyticsEffRatio (Cell.num 1) (Cell.num 3) =
      Cell.num (roundTo2 (1 / 3 * 100) / 100) ∧
    roundTo2 (1 / 3 * 100) / 100 = (rheInt (1 / 3 * 10000) : ℚ) / 10000 :=
  C9_eff_roundtripped 1 3 (by norm_num)

/-- C3: the claim as stated is false on the code: with mandatory columns
missing the stage does not raise an InsufficientSchema failure naming the
offending column — it is skipped with one fixed informational message,
identical whether 姓名 or 工站 is the missing column. -/
theorem C3_counterexample :
    advancedAnalysis ⟨["工站", "效率值"], []⟩ = AdvancedOutcome.skippedInfo skipMessage ∧
    advancedAnalysis ⟨["姓名", "效率值"], []⟩ = AdvancedOutcome.skippedInfo skipMessage := by
  constructor <;> rfl

/-- C3 (amended): if 工站 or 姓名 is absent, or both 效率值 and 效率 are
absent, the analytics stage is skipped with the fixed informational
message; no exception is raised and the upstream merged output is
unaffected. -/
theorem C3_analytics_skip (t : Table)
    (h : "工站" ∉ t.cols ∨ "姓名" ∉ t.cols ∨ ("效率值" ∉ t.cols ∧ "效率" ∉ t.cols)) :
    advancedAnalysis t = AdvancedOutcome.skippedInfo skipMessage := by
  have hg : analyticsGate t = false := by
    unfold analyticsGate
    rcases h with h | h | ⟨h1, h2⟩
    · simp [h]
    · simp [h]
    · simp [h1, h2]
  unfold advancedAnalysis
  rw [if_neg (by simp [hg])]

/-- C3 amended, witnessed on a table lacking 姓名. -/
theorem C3_witness :
    advancedAnalysis ⟨["工站"], []⟩ = AdvancedOutcome.skippedInfo skipMessage :=
  C3_analytics_skip ⟨["工站"], []⟩ (Or.inr (Or.inl (by decide)))

theorem filter_of_map {α β : Type} (f : α → β) (p : β → Bool) (l : List α) :
    (l.map f).filter p = (l.filter fun a => p (f a)).map f := by
  induction l with
  | nil => rfl
  | cons a as ih =>
    by_cases h : p (f a) = true
    · simp [List.filter_cons, h, ih]
    · simp only [Bool.not_eq_true] at h
      simp [List.filter_cons, h, ih]

theorem nodup_filter_beq_singleton {l : List Cell} (hnd : l.Nodup) {s : Cell}
    (hs : s ∈ l) : l.filter (fun k => k == s) = [s] := by
  induction l with
  | nil => simp at hs
  | cons a as ih =>
    rcases List.mem_cons.mp hs with rfl | hmem
    · have hnot : s ∉ as := (List.nodup_cons.mp hnd).1
      have hall : as.filter (fun k => k == s) = [] := by
        apply List.filter_eq_nil_iff.mpr
        intro b hb
        simp only [beq_iff_eq]
        intro hbs
        exact hnot (hbs ▸ hb)
      simp [List.filter_cons, hall]
    · have hne : (a == s) = false := by
        simp only [beq_eq_false_iff_ne, ne_eq]
        intro has
        exact (List.nodup_cons.mp hnd).1 (has ▸ hmem)
      simp [List.filter_cons, hne, ih (List.nodup_cons.mp hnd).2 hmem]

theorem Cell.div_num (x y : ℚ) (hy : y ≠ 0) :
    Cell.div (.num x) (.num y) = .num (x / y) := by
  show (if y = 0 then (if 0 < x then Cell.inf else if x < 0 then Cell.ninf else Cell.nan)
    else Cell.num (x / y)) = Cell.num (x / y)
  rw [if_neg hy]

theorem foldl_add_nums (qs : List ℚ) (a : ℚ) :
    (qs.map Cell.num).foldl Cell.add (Cell.num a) = Cell.num (a + qs.sum) := by
  induction qs generalizing a with
  | nil => simp
  | cons q rest ih =>
    simp only [List.map_cons, List.foldl_cons, List.sum_cons]
    rw [show Cell.add (Cell.num a) (Cell.num q) = Cell.num (a + q) from rfl, ih]
    ring_nf

theorem allnum_eq_map (l : List Cell) (hl : ∀ c ∈ l, c.isNum = true) :
    l = (l.map Cell.toQ).map Cell.num := by
  induction l with
  | nil => rfl
  | cons c cs ih =>
    have hc := hl c (List.mem_cons_self c cs)
    cases c with
    | num q =>
      have ht := ih fun d hd => hl d (List.mem_cons_of_mem _ hd)
      calc Cell.num q :: cs = Cell.num q :: (cs.map Cell.toQ).map Cell.num := by rw [← ht]
        _ = ((Cell.num q :: cs).map Cell.toQ).map Cell.num := rfl
    | str s => simp [Cell.isNum] at hc
    | inf => simp [Cell.isNum] at hc
    | ninf => simp [Cell.isNum] at hc
    | nan => simp [Cell.isNum] at hc

theorem isNum_ne_nan {c : Cell} (h : c.isNum = true) : (c == Cell.nan) = false := by
  cases c <;> simp_all [Cell.isNum]

theorem meanCell_allnum (l : List Cell) (hl : ∀ c ∈ l, c.isNum = true)
    (hne : l ≠ []) :
    meanCell l = Cell.num ((l.map Cell.toQ).sum / l.length) := by
  unfold meanCell
  have hfilter : l.filter (fun c => !(c == Cell.nan)) = l := by
    apply List.filter_eq_self.mpr
    intro c hc
    simp [isNum_ne_nan (hl c hc)]
  rw [hfilter]
  have hlen : l.length ≠ 0 := by
    intro h0
    exact hne (List.length_eq_zero.mp h0)
  rw [if_neg hlen]
  conv_lhs => rw [allnum_eq_map l hl]
  rw [foldl_add_nums]
  have hlenq : ((List.map Cell.num (List.map Cell.toQ l)).length : ℚ) = (l.length : ℚ) := by
    simp
  rw [hlenq, Cell.div_num _ _ (by exact_mod_cast hlen), zero_add]

theorem stationKeys_nodup (t : Table) : (stationKeys t).Nodup :=
  List.nodup_dedup _

theorem stationGroup_ne_nil {t : Table} {s : Cell} (hs : s ∈ stationKeys t) :
    stationGroup t s ≠ [] := by
  unfold stationKeys at hs
  rw [List.mem_dedup] at hs
  obtain ⟨hmem, -⟩ := List.mem_filter.mp hs
  obtain ⟨r, hr, hrs⟩ := List.mem_map.mp hmem
  have : r ∈ stationGroup t s := by
    unfold stationGroup
    exact List.mem_filter.mpr ⟨hr, by simp [hrs]⟩
  exact List.ne_nil_of_mem this

/-- C5: the claim as stated is false on the code: on a station group whose
single row has a missing 姓名, the aggregated 人數 is 0, not the group's
row count 1 — pandas `count` counts non-missing 姓名 cells, not records. -/
theorem C5_counterexample :
    ∃ sr ∈ stationMetrics stationTblMissingName,
      sr.station = Cell.str "A" ∧ sr.headCount = 0 ∧
      (stationGroup stationTblMissingName (Cell.str "A")).length = 1 ∧ (0:ℕ) ≠ 1 := by
  refine ⟨_, List.mem_map_of_mem _ (show Cell.str "A" ∈ stationKeys stationTblMissingName
    by decide), rfl, ?_, by decide, by decide⟩
  decide

/-- C5 (amended): for every distinct Station value all of whose group rows
carry a non-missing 姓名 and a parseable 效率, the station-metrics table
has exactly one row for it, with 效率 equal to the arithmetic mean of the
group's efficiency ratios times 100 and 人數 equal to the group's row
count. -/
theorem C5_station_metrics_amended (t : Table) (s : Cell)
    (hs : s ∈ stationKeys t)
    (hname : ∀ r ∈ stationGroup t s, (getCell t r "姓名" == Cell.nan) = false)
    (heff : ∀ r ∈ stationGroup t s, (effOf t r).isNum = true) :
    (stationMetrics t).filter (fun sr => sr.station == s) =
      [{ station := s
       , meanEff := Cell.num ((((stationGroup t s).map (effOf t)).map Cell.toQ).sum /
           ((stationGroup t s).map (effOf t)).length * 100)
       , headCount := (stationGroup t s).length }] := by
  unfold stationMetrics
  rw [filter_of_map]
  have hsel : ((stationKeys t).filter fun k =>
      (({ station := k
        , meanEff := (meanCell ((stationGroup t k).map (effOf t))).mul (.num 100)
        , headCount := ((stationGroup t k).filter
            fun r => !(getCell t r "姓名" == Cell.nan)).length } : StationRow).station == s))
      = [s] := by
    exact nodup_filter_beq_singleton (stationKeys_nodup t) hs
  rw [hsel]
  simp only [List.map_cons, List.map_nil]
  have hmean : meanCell ((stationGroup t s).map (effOf t)) =
      Cell.num ((((stationGroup t s).map (effOf t)).map Cell.toQ).sum /
        ((stationGroup t s).map (effOf t)).length) := by
    apply meanCell_allnum
    · intro c hc
      obtain ⟨r, hr, rfl⟩ := List.mem_map.mp hc
      exact heff r hr
    · simp only [ne_eq, List.map_eq_nil_iff]
      exact stationGroup_ne_nil hs
  have hcount : (stationGroup t s).filter (fun r => !(getCell t r "姓名" == Cell.nan))
      = stationGroup t s := by
    apply List.filter_eq_self.mpr
    intro r hr
    simp [hname r hr]
  rw [hmean, hcount]
  rfl

/-- C5 amended, witnessed on a two-row station group with complete data. -/
theorem C5_witness :
    (stationMetrics ⟨["工站", "姓名", "效率值"],
        [[Cell.str "A", Cell.str "X", Cell.num 100],
         [Cell.str "A", Cell.str "Y", Cell.num 80]]⟩).filter
      (fun sr => sr.station == Cell.str "A") =
      [{ station := Cell.str "A"
       , meanEff := Cell.num
           ((((stationGroup ⟨["工站", "姓名", "效率值"],
                [[Cell.str "A", Cell.str "X", Cell.num 100],
                 [Cell.str "A", Cell.str "Y", Cell.num 80]]⟩ (Cell.str "A")).map
              (effOf ⟨["工站", "姓名", "效率值"],
                [[Cell.str "A", Cell.str "X", Cell.num 100],
                 [Cell.str "A", Cell.str "Y", Cell.num 80]]⟩)).map Cell.toQ).sum /
            ((stationGroup ⟨["工站", "姓名", "效率值"],
                [[Cell.str "A", Cell.str "X", Cell.num 100],
                 [Cell.str "A", Cell.str "Y", Cell.num 80]]⟩ (Cell.str "A")).map
              (effOf ⟨["工站", "姓名", "效率值"],
                [[Cell.str "A", Cell.str "X", Cell.num 100],
                 [Cell.str "A", Cell.str "Y", Cell.num 80]]⟩)).length * 100)
       , headCount := (stationGroup ⟨["工站", "姓名", "效率值"],
           [[Cell.str "A", Cell.str "X", Cell.num 100],
            [Cell.str "A", Cell.str "Y", Cell.num 80]]⟩ (Cell.str "A")).length }] :=
  C5_station_metrics_amended _ (Cell.str "A") (by decide) (by decide) (by decide)

/-- C10: station aggregation uses different denominators for its two
aggregates — 人數 counts exactly the group rows with a non-missing 姓名,
while the mean averages only the non-missing recomputed 效率 values
(`meanCell` skips missing cells), so 人數 never exceeds the group size but
may fall short of it. -/
theorem C10_station_agg_denominators (t : Table) (s : Cell)
    (hs : s ∈ stationKeys t) :
    ∃ sr ∈ stationMetrics t, sr.station = s ∧
      sr.headCount = (stationGroup t s).countP
        (fun r => !(getCell t r "姓名" == Cell.nan)) ∧
      sr.meanEff = (meanCell ((stationGroup t s).map (effOf t))).mul (Cell.num 100) ∧
      sr.headCount ≤ (stationGroup t s).length := by
  refine ⟨_, List.mem_map_of_mem _ hs, rfl, ?_, rfl, ?_⟩
  · rw [List.countP_eq_length_filter]
  · exact List.length_filter_le _ _

/-- C10, witnessed on a station group of 3 rows where 人數 = 2 and only one
效率 value enters the mean: the three counts are pairwise different. -/
theorem C10_witness :
    (∃ sr ∈ stationMetrics stationTblMixed, sr.station = Cell.str "A" ∧
      sr.headCount = (stationGroup stationTblMixed (Cell.str "A")).countP
        (fun r => !(getCell stationTblMixed r "姓名" == Cell.nan)) ∧
      sr.meanEff = (meanCell ((stationGroup stationTblMixed (Cell.str "A")).map
        (effOf stationTblMixed))).mul (Cell.num 100) ∧
      sr.headCount ≤ (stationGroup stationTblMixed (Cell.str "A")).length) ∧
    (stationGroup stationTblMixed (Cell.str "A")).length = 3 ∧
    (stationGroup stationTblMixed (Cell.str "A")).countP
      (fun r => !(getCell stationTblMixed r "姓名" == Cell.nan)) = 2 ∧
    (((stationGroup stationTblMixed (Cell.str "A")).map (effOf stationTblMixed)).filter
      (fun c => !(c == Cell.nan))).length = 1 :=
  ⟨C10_station_agg_denominators stationTblMixed (Cell.str "A") (by decide),
    by decide, by decide, by decide⟩

end Pipeline
